import Mathlib

/-!
Verification of the obsidian-mcp-server repository against its
natural-language specification.

The development shallowly embeds the TypeScript sources:
* the error taxonomy (`BaseErrorCode`, `McpError`) from `types-global/errors`;
* the per-tool retryable-error predicate `shouldRetryNotFound`, written
  identically in `obsidianDeleteNoteTool/logic.ts`,
  `obsidianDisconnectSessionTool/logic.ts` and
  `obsidianGetActiveNoteTool/logic.ts`;
* the error-categorisation tail of `processObsidianExecuteCommand`
  (`obsidianExecuteCommandTool/logic.ts`);
* the delete-note logic with its case-insensitive fallback
  (`obsidianDeleteNoteTool/logic.ts`);
* the vault cache layer (`VaultCacheService`), whose implementation is not
  among the provided sources and is therefore modelled from the
  specification's own description (sections 3 to 5 of the spec); each such
  definition carries a doc comment starting with `Modelled from the spec:`.

Machine integers do not occur on the verified paths; timestamps and sizes
are modelled as `Nat`.
-/

namespace ObsidianMcp

/-! ## Error taxonomy (from `types-global/errors`)

The sources use `BaseErrorCode` members `NOT_FOUND`, `CONFLICT`, `TIMEOUT`,
`UNAUTHORIZED`, `VALIDATION_ERROR` and `INTERNAL_ERROR`; an `McpError`
carries a code and a message (the request context is irrelevant to the
claims and omitted). A value thrown by the TypeScript code is either an
`McpError` or some other JavaScript value, modelled by `CallError.other`. -/

inductive BaseErrorCode where
  | NOT_FOUND
  | CONFLICT
  | TIMEOUT
  | UNAUTHORIZED
  | VALIDATION_ERROR
  | INTERNAL_ERROR
  deriving DecidableEq, Repr

structure McpError where
  code : BaseErrorCode
  message : String
  deriving DecidableEq, Repr

/-- A thrown value: an `McpError`, or any other error (`err instanceof
McpError` is false for the latter). -/
inductive CallError where
  | mcp (e : McpError)
  | other (message : String)
  deriving DecidableEq, Repr

/-- From `obsidianDeleteNoteTool/logic.ts` line 157 (and verbatim copies in
`obsidianGetActiveNoteTool/logic.ts` line 80 and
`obsidianDisconnectSessionTool` logic line 89):

`const shouldRetryNotFound = (err: unknown) => err instanceof McpError && err.code === BaseErrorCode.NOT_FOUND;` -/
def shouldRetryNotFound : CallError → Bool
  | CallError.mcp e => e.code == BaseErrorCode.NOT_FOUND
  | CallError.other _ => false

/-! ## The bounded-retry helper

`retryWithDelay` lives in `utils/` which is not among the provided sources;
only its call sites are. -/

/-- Modelled from the spec: the `retryWithDelay` helper of `utils/` (not in
the provided sources) is "a generic bounded-retry policy parameterized by a
retryable-error predicate" with "bounded retries with fixed backoff".
`op i` is the outcome of the `i`-th attempt (0-based); `fuel` is how many
further attempts may follow the current one. The fixed `delayMs` pause
between attempts has no observable effect in this timeless model and is not
represented. Returns the final outcome together with the total number of
attempts made. -/
def retryLoop (op : Nat → Except CallError α) (sr : CallError → Bool) :
    Nat → Nat → Except CallError α × Nat
  | fuel, i =>
    match op i with
    | Except.ok a => (Except.ok a, i + 1)
    | Except.error e =>
      match fuel with
      | 0 => (Except.error e, i + 1)
      | fuel' + 1 =>
        if sr e then retryLoop op sr fuel' (i + 1) else (Except.error e, i + 1)

/-- Modelled from the spec: `retryWithDelay` with `maxRetries` as the bound
on the total number of attempts (the call sites pass `maxRetries: 3,
delayMs: 300`). Even `maxRetries = 0` performs one attempt. -/
def retryWithDelay (op : Nat → Except CallError α) (maxRetries : Nat)
    (sr : CallError → Bool) : Except CallError α × Nat :=
  retryLoop op sr (maxRetries - 1) 0

theorem retryLoop_ok (op : Nat → Except CallError α) (sr : CallError → Bool)
    (fuel i : Nat) (a : α) (hop : op i = Except.ok a) :
    retryLoop op sr fuel i = (Except.ok a, i + 1) := by
  rw [retryLoop, hop]

theorem retryLoop_error_zero (op : Nat → Except CallError α)
    (sr : CallError → Bool) (i : Nat) (e : CallError)
    (hop : op i = Except.error e) :
    retryLoop op sr 0 i = (Except.error e, i + 1) := by
  rw [retryLoop, hop]

theorem retryLoop_error_succ (op : Nat → Except CallError α)
    (sr : CallError → Bool) (f i : Nat) (e : CallError)
    (hop : op i = Except.error e) :
    retryLoop op sr (f + 1) i =
      if sr e then retryLoop op sr f (i + 1) else (Except.error e, i + 1) := by
  rw [retryLoop, hop]

theorem retryLoop_attempts_le (op : Nat → Except CallError α)
    (sr : CallError → Bool) :
    ∀ fuel i, (retryLoop op sr fuel i).2 ≤ i + fuel + 1 := by
  intro fuel
  induction fuel with
  | zero =>
    intro i
    cases h : op i with
    | ok a => rw [retryLoop_ok op sr 0 i a h]
    | error e => rw [retryLoop_error_zero op sr i e h]
  | succ f ih =>
    intro i
    cases h : op i with
    | ok a =>
      rw [retryLoop_ok op sr (f + 1) i a h]
      omega
    | error e =>
      rw [retryLoop_error_succ op sr f i e h]
      by_cases hs : sr e = true
      · have hih := ih (i + 1)
        rw [if_pos hs]
        omega
      · rw [if_neg hs]
        omega

/-- The number of attempts `retryWithDelay` makes is bounded: at most
`maxRetries` attempts (and one attempt even when `maxRetries = 0`). -/
theorem retryWithDelay_attempts_le (op : Nat → Except CallError α)
    (sr : CallError → Bool) (maxRetries : Nat) :
    (retryWithDelay op maxRetries sr).2 ≤ max maxRetries 1 := by
  have h := retryLoop_attempts_le op sr (maxRetries - 1) 0
  simp only [retryWithDelay]
  omega

/-- An error the retryable-error predicate rejects is thrown after the
first attempt: it is never retried. -/
theorem retryWithDelay_no_retry (op : Nat → Except CallError α)
    (sr : CallError → Bool) (maxRetries : Nat) (e : CallError)
    (hop : op 0 = Except.error e) (hsr : sr e = false) :
    retryWithDelay op maxRetries sr = (Except.error e, 1) := by
  simp only [retryWithDelay]
  cases h1 : maxRetries - 1 with
  | zero => rw [retryLoop_error_zero op sr 0 e hop]
  | succ f =>
    rw [retryLoop_error_succ op sr f 0 e hop, if_neg (by simp [hsr])]

/-- A deterministic operation that keeps failing with an error the
predicate accepts is retried until the attempt bound is exhausted. -/
theorem retryLoop_const_error {α : Type u} (e : CallError) (sr : CallError → Bool)
    (hsr : sr e = true) :
    ∀ fuel i, retryLoop (fun _ => (Except.error e : Except CallError α)) sr fuel i
      = (Except.error e, i + fuel + 1) := by
  intro fuel
  induction fuel with
  | zero =>
    intro i
    rw [retryLoop_error_zero _ sr i e rfl]
  | succ f ih =>
    intro i
    rw [retryLoop_error_succ _ sr f i e rfl, if_pos hsr, ih (i + 1)]
    congr 1
    omega

/-- C1 counterexample: the claim says "a not-found error is never retried
(the retryable-error predicate returns false for not-found)". On the code it
is the opposite: `shouldRetryNotFound` returns `true` precisely for an
`McpError` with code `NOT_FOUND`, and an operation that keeps failing with
not-found is attempted 3 times under the call sites' `maxRetries: 3`. -/
theorem C1_counterexample :
    shouldRetryNotFound
      (CallError.mcp ⟨BaseErrorCode.NOT_FOUND, "File not found."⟩) = true ∧
    (retryWithDelay
      (fun _ => (Except.error
        (CallError.mcp ⟨BaseErrorCode.NOT_FOUND, "File not found."⟩) :
          Except CallError Unit))
      3 shouldRetryNotFound).2 = 3 := by
  exact ⟨rfl, rfl⟩

/-- C1 (amended): for every remote call made through the bounded-retry
helper, the number of attempts is bounded by `maxRetries` (with at least
one attempt); the retryable-error predicate `shouldRetryNotFound` used by
the delete-note, disconnect-session and get-active-note call sites accepts
exactly the not-found `McpError`s — so a not-found error is the only error
retried there, and every other failure is rethrown after a single
attempt. -/
theorem C1_retry_policy :
    (∀ (α : Type) (op : Nat → Except CallError α) (maxRetries : Nat)
        (sr : CallError → Bool),
        (retryWithDelay op maxRetries sr).2 ≤ max maxRetries 1) ∧
    (∀ e, shouldRetryNotFound e = true ↔
        ∃ m, e = CallError.mcp ⟨BaseErrorCode.NOT_FOUND, m⟩) ∧
    (∀ (α : Type) (op : Nat → Except CallError α) (maxRetries : Nat)
        (e : CallError),
        shouldRetryNotFound e = false → op 0 = Except.error e →
        retryWithDelay op maxRetries shouldRetryNotFound =
          (Except.error e, 1)) := by
  refine ⟨fun α op mr sr => retryWithDelay_attempts_le op sr mr, ?_,
    fun α op mr e h1 h2 => retryWithDelay_no_retry op shouldRetryNotFound mr e h2 h1⟩
  intro e
  cases e with
  | mcp err =>
    cases err with
    | mk c m =>
      simp only [shouldRetryNotFound, beq_iff_eq]
      constructor
      · intro hc
        exact ⟨m, by rw [hc]⟩
      · rintro ⟨m', hm⟩
        injection hm with h
        injection h with h1 h2
  | other m =>
    simp only [shouldRetryNotFound]
    constructor
    · intro h
      exact absurd h (by simp)
    · rintro ⟨m', hm⟩
      exact CallError.noConfusion hm

/-! ## Execute-command error categorisation
(`obsidianExecuteCommandTool/logic.ts`, lines 258 to 309) -/

/-- Whether the second character list is a prefix of the first argument's
suffixes: helper for the substring test below. -/
def charsStartsWith : List Char → List Char → Bool
  | [], _ => true
  | _ :: _, [] => false
  | p :: ps, c :: cs => p == c && charsStartsWith ps cs

/-- Whether `pat` occurs as a contiguous run inside the character list. -/
def charsHasSub (pat : List Char) : List Char → Bool
  | [] => charsStartsWith pat []
  | c :: cs => charsStartsWith pat (c :: cs) || charsHasSub pat cs

/-- JavaScript's `errorMessage.includes(pat)`: `pat` occurs as a contiguous
substring of `s`. -/
def strContains (s pat : String) : Bool := charsHasSub pat.data s.data

/-- Lines 271 to 283 of `obsidianExecuteCommandTool/logic.ts`: the error
code derived from the caught error's message (`errorCode`). -/
def classifyExecError (errorMessage : String) : BaseErrorCode :=
  if strContains errorMessage "timed out" then BaseErrorCode.TIMEOUT
  else if strContains errorMessage "not found" || strContains errorMessage "404" then
    BaseErrorCode.NOT_FOUND
  else if strContains errorMessage "403" || strContains errorMessage "unauthorized" then
    BaseErrorCode.UNAUTHORIZED
  else BaseErrorCode.INTERNAL_ERROR

/-- How `processObsidianExecuteCommand` leaves its catch block: either it
returns a response (`success`, `error.code`) or it throws an `McpError`
with the given code. -/
inductive ExecOutcome where
  | returned (success : Bool) (errorCode : BaseErrorCode)
  | threw (code : BaseErrorCode)
  deriving DecidableEq, Repr

/-- Lines 285 to 309 of `obsidianExecuteCommandTool/logic.ts`: the error
response is built with `success: false` and `error.code = errorCode`; for
`NOT_FOUND` it is returned, for every other code an `McpError` with that
code is thrown. -/
def execCommandCatch (errorMessage : String) : ExecOutcome :=
  let errorCode := classifyExecError errorMessage
  if errorCode = BaseErrorCode.NOT_FOUND then ExecOutcome.returned false errorCode
  else ExecOutcome.threw errorCode

/-- C10 counterexample: the claim says a failure whose message contains
"not found" makes the function return a `NOT_FOUND` response, but the code
checks "timed out" first: on a message containing both, it throws a
`TIMEOUT` `McpError` instead of returning. -/
theorem C10_counterexample :
    strContains "Command execution timed out after 5000ms: resource not found"
      "not found" = true ∧
    execCommandCatch "Command execution timed out after 5000ms: resource not found" =
      ExecOutcome.threw BaseErrorCode.TIMEOUT := by
  exact ⟨rfl, rfl⟩

/-- C10 (amended): when the error message contains "timed out" the function
throws an `McpError` with code `TIMEOUT`; otherwise, when it contains "not
found" or "404" the function returns (does not throw) a response with
`success = false` and `error.code = NOT_FOUND`; for every other failure it
throws an `McpError` (never with code `NOT_FOUND`) rather than returning a
response. -/
theorem C10_exec_error_outcomes :
    ∀ msg : String,
      (strContains msg "timed out" = true →
        execCommandCatch msg = ExecOutcome.threw BaseErrorCode.TIMEOUT) ∧
      (strContains msg "timed out" = false →
        (strContains msg "not found" || strContains msg "404") = true →
        execCommandCatch msg = ExecOutcome.returned false BaseErrorCode.NOT_FOUND) ∧
      (strContains msg "timed out" = false →
        (strContains msg "not found" || strContains msg "404") = false →
        ∃ c, execCommandCatch msg = ExecOutcome.threw c ∧
          c ≠ BaseErrorCode.NOT_FOUND) := by
  intro msg
  refine ⟨?_, ?_, ?_⟩
  · intro h
    simp [execCommandCatch, classifyExecError, h]
  · intro h1 h2
    simp [execCommandCatch, classifyExecError, h1, h2]
  · intro h1 h2
    by_cases h3 : (strContains msg "403" || strContains msg "unauthorized") = true
    · refine ⟨BaseErrorCode.UNAUTHORIZED, ?_, by decide⟩
      simp [execCommandCatch, classifyExecError, h1, h2, h3]
    · refine ⟨BaseErrorCode.INTERNAL_ERROR, ?_, by decide⟩
      simp only [Bool.not_eq_true] at h3
      simp [execCommandCatch, classifyExecError, h1, h2, h3]

/-! ## Delete-note logic with case-insensitive fallback
(`obsidianDeleteNoteTool/logic.ts`) -/

/-- `node:path`'s `path.posix` splits on `/`; the components of a
vault-relative path. -/
def splitOnSlash : List Char → List (List Char)
  | [] => [[]]
  | c :: cs =>
    let r := splitOnSlash cs
    if c == '/' then [] :: r
    else
      match r with
      | [] => [[c]]
      | h :: t => (c :: h) :: t

/-- Joins path components back with `/` separators. -/
def joinSlash : List (List Char) → List Char
  | [] => []
  | [p] => p
  | p :: ps => p ++ '/' :: joinSlash ps

/-- Model of `path.posix.basename` on the file paths this tool receives
(vault-relative, no trailing slash): the component after the last `/`. -/
def posixBasename (p : String) : String :=
  String.mk ((splitOnSlash p.data).getLastD [])

/-- Model of `path.posix.dirname` on such paths: everything before the last
`/`, `"."` when there is no `/`, `"/"` for a path in the root that starts
with `/`. -/
def posixDirname (p : String) : String :=
  let parts := splitOnSlash p.data
  if parts.length ≤ 1 then "."
  else
    let d := joinSlash parts.dropLast
    if d.isEmpty then "/" else String.mk d

/-- Model of `path.posix.join` for the two-argument calls the tool makes
(`path.posix.join(dirname, correctFilename)` where `dirname` came from
`path.posix.dirname`). -/
def posixJoin (d f : String) : String :=
  if d = "." then f
  else if d = "/" then "/" ++ f
  else d ++ "/" ++ f

/-- JavaScript's `String.prototype.toLowerCase` on the ASCII range the
vault paths use. -/
def charLower (c : Char) : Char :=
  if 'A' ≤ c && c ≤ 'Z' then Char.ofNat (c.toNat + 32) else c

/-- `filename.toLowerCase()`. -/
def strLower (s : String) : String := String.mk (s.data.map charLower)

/-- The remote Obsidian REST API as the delete-note tool sees it: the
outcome of `deleteFile(path)`, `deleteActiveFile()` and `listFiles(dir)`
(deterministic per argument, which models a store that does not change
during the call). -/
structure DeleteEnv where
  deleteFile : String → Except CallError Unit
  deleteActiveFile : Except CallError Unit
  listFiles : String → Except CallError (List String)

/-- The `ObsidianDeleteNoteResponse` interface of the source. -/
structure ObsidianDeleteNoteResponse where
  success : Bool
  message : String
  deriving DecidableEq, Repr

/-- How `processObsidianDeleteNote` finishes: a returned response or a
thrown `McpError`. -/
inductive DeleteOutcome where
  | ok (response : ObsidianDeleteNoteResponse)
  | err (e : McpError)
  deriving DecidableEq, Repr

/-- Every remote call of the delete-note tool goes through `retryWithDelay`
with `maxRetries: 3, delayMs: 300, shouldRetry: shouldRetryNotFound`; with
a deterministic environment the same outcome recurs on every attempt. -/
def retryCall (x : Except CallError β) : Except CallError β :=
  (retryWithDelay (fun _ => x) 3 shouldRetryNotFound).1

/-- Lines 271 to 275: the directory listing filtered down to non-directory
entries whose basename matches the requested filename case-insensitively
(`matches`). -/
def deleteMatches (filesInDir : List String) (filenameLower : String) : List String :=
  filesInDir.filter (fun f =>
    !(f.data.getLastD ' ' == '/') && strLower (posixBasename f) == filenameLower)

/-- Line 315: the success message of a fallback deletion. -/
def fallbackSuccessMessage (orig eff : String) : String :=
  "File '" ++ eff ++ "' (found via case-insensitive match for '" ++ orig ++
    "') deleted successfully."

/-- Line 319: the ambiguous-match error message. -/
def fallbackConflictMessage (orig : String) (ms : List String) : String :=
  "Deletion failed: Ambiguous case-insensitive matches for '" ++ orig ++
    "'. Found: [" ++ String.intercalate ", " ms ++
    "]. Cannot determine which file to delete."

/-- Line 325: the message when even the fallback finds nothing. -/
def fallbackNotFoundMessage (orig : String) : String :=
  "Deletion failed: File not found for '" ++ orig ++
    "' (case-insensitive fallback also failed)."

/-- Lines 235 to 358 of `obsidianDeleteNoteTool/logic.ts`: the
case-insensitive fallback after the exact-path delete failed with
`NOT_FOUND`. Lists the directory, filters case-insensitive file matches;
one match retries the delete under the corrected path, several throw
`CONFLICT`, none throws `NOT_FOUND`; a non-`McpError` thrown inside the
fallback is wrapped as `INTERNAL_ERROR`. -/
def deleteFallback (env : DeleteEnv) (originalFilePath : String) : DeleteOutcome :=
  let dirname := posixDirname originalFilePath
  let filenameLower := strLower (posixBasename originalFilePath)
  let dirToList := if dirname = "." then "/" else dirname
  match retryCall (env.listFiles dirToList) with
  | Except.error (CallError.mcp err) => DeleteOutcome.err err
  | Except.error (CallError.other m) =>
    DeleteOutcome.err ⟨BaseErrorCode.INTERNAL_ERROR,
      "Unexpected error during case-insensitive fallback deletion for " ++
        originalFilePath ++ ": " ++ m⟩
  | Except.ok filesInDir =>
    match deleteMatches filesInDir filenameLower with
    | [] => DeleteOutcome.err
        ⟨BaseErrorCode.NOT_FOUND, fallbackNotFoundMessage originalFilePath⟩
    | [single] =>
      let effectiveFilePath := posixJoin dirname (posixBasename single)
      match retryCall (env.deleteFile effectiveFilePath) with
      | Except.ok _ => DeleteOutcome.ok
          ⟨true, fallbackSuccessMessage originalFilePath effectiveFilePath⟩
      | Except.error (CallError.mcp err) => DeleteOutcome.err err
      | Except.error (CallError.other m) =>
        DeleteOutcome.err ⟨BaseErrorCode.INTERNAL_ERROR,
          "Unexpected error during case-insensitive fallback deletion for " ++
            originalFilePath ++ ": " ++ m⟩
    | ms => DeleteOutcome.err
        ⟨BaseErrorCode.CONFLICT, fallbackConflictMessage originalFilePath ms⟩

/-- The target-type enum of the input schema. -/
inductive DeleteNoteTargetType where
  | filePath
  | activeFile
  deriving DecidableEq, Repr

/-- `processObsidianDeleteNote` (`obsidianDeleteNoteTool/logic.ts` lines
140 to 383). The cache-invalidation side call (`updateCacheForFile`, lines
212 to 217) mutates the vault cache modelled separately below and does not
affect this function's outcome. -/
def processObsidianDeleteNote (env : DeleteEnv)
    (targetType : DeleteNoteTargetType) (originalFilePath : String) :
    DeleteOutcome :=
  match targetType with
  | DeleteNoteTargetType.activeFile =>
    match retryCall env.deleteActiveFile with
    | Except.ok _ =>
      DeleteOutcome.ok ⟨true, "Currently active file deleted successfully."⟩
    | Except.error (CallError.mcp err) => DeleteOutcome.err err
    | Except.error (CallError.other m) =>
      DeleteOutcome.err ⟨BaseErrorCode.INTERNAL_ERROR,
        "Unexpected error deleting Obsidian file " ++ originalFilePath ++
          ": " ++ m⟩
  | DeleteNoteTargetType.filePath =>
    match retryCall (env.deleteFile originalFilePath) with
    | Except.ok _ =>
      DeleteOutcome.ok
        ⟨true, "File '" ++ originalFilePath ++ "' deleted successfully."⟩
    | Except.error (CallError.mcp err) =>
      if err.code = BaseErrorCode.NOT_FOUND then
        deleteFallback env originalFilePath
      else DeleteOutcome.err err
    | Except.error (CallError.other m) =>
      DeleteOutcome.err ⟨BaseErrorCode.INTERNAL_ERROR,
        "Unexpected error deleting Obsidian file " ++ originalFilePath ++
          ": " ++ m⟩

theorem retryCall_eq (x : Except CallError β) : retryCall x = x := by
  cases x with
  | ok a =>
    simp only [retryCall, retryWithDelay]
    rw [retryLoop_ok _ shouldRetryNotFound _ 0 a rfl]
  | error e =>
    by_cases h : shouldRetryNotFound e = true
    · simp only [retryCall, retryWithDelay]
      rw [retryLoop_const_error e shouldRetryNotFound h]
    · simp only [retryCall]
      rw [retryWithDelay_no_retry _ _ _ e rfl (by simpa using h)]

/-- C9: with targetType "filePath", when the exact-path delete fails with
`NOT_FOUND` and the fallback directory listing succeeds: exactly one
case-insensitive non-directory match is deleted under the corrected path
and a success response naming that path is returned; several matches throw
an `McpError` with code `CONFLICT`; no match throws an `McpError` with
code `NOT_FOUND`. -/
theorem C9_delete_fallback (env : DeleteEnv) (orig m : String)
    (files : List String)
    (hdel : env.deleteFile orig =
      Except.error (CallError.mcp ⟨BaseErrorCode.NOT_FOUND, m⟩))
    (hlist : env.listFiles
        (if posixDirname orig = "." then "/" else posixDirname orig) =
      Except.ok files) :
    (∀ c, deleteMatches files (strLower (posixBasename orig)) = [c] →
      env.deleteFile (posixJoin (posixDirname orig) (posixBasename c)) =
        Except.ok () →
      processObsidianDeleteNote env DeleteNoteTargetType.filePath orig =
        DeleteOutcome.ok ⟨true, fallbackSuccessMessage orig
          (posixJoin (posixDirname orig) (posixBasename c))⟩) ∧
    (1 < (deleteMatches files (strLower (posixBasename orig))).length →
      processObsidianDeleteNote env DeleteNoteTargetType.filePath orig =
        DeleteOutcome.err ⟨BaseErrorCode.CONFLICT,
          fallbackConflictMessage orig
            (deleteMatches files (strLower (posixBasename orig)))⟩) ∧
    ((deleteMatches files (strLower (posixBasename orig))).length = 0 →
      processObsidianDeleteNote env DeleteNoteTargetType.filePath orig =
        DeleteOutcome.err ⟨BaseErrorCode.NOT_FOUND,
          fallbackNotFoundMessage orig⟩) := by
  have hp : processObsidianDeleteNote env DeleteNoteTargetType.filePath orig =
      deleteFallback env orig := by
    simp [processObsidianDeleteNote, retryCall_eq, hdel]
  refine ⟨?_, ?_, ?_⟩
  · intro c hms hdel2
    rw [hp]
    simp [deleteFallback, retryCall_eq, hlist, hms, hdel2]
  · intro hlen
    rw [hp]
    rcases hl : deleteMatches files (strLower (posixBasename orig)) with
      _ | ⟨a, _ | ⟨b, t⟩⟩
    · rw [hl] at hlen
      simp at hlen
    · rw [hl] at hlen
      simp at hlen
    · simp [deleteFallback, retryCall_eq, hlist, hl]
  · intro hlen
    rw [hp]
    rw [List.length_eq_zero] at hlen
    simp [deleteFallback, retryCall_eq, hlist, hlen]

/-- Environment for the C9 witness with exactly one case-insensitive
match. -/
def deleteEnvOne : DeleteEnv :=
  ⟨fun p => if p = "Notes/File.md" then Except.ok () else
      Except.error (CallError.mcp ⟨BaseErrorCode.NOT_FOUND, "File not found."⟩),
    Except.ok (),
    fun d => if d = "Notes" then Except.ok ["File.md", "sub/"] else
      Except.error (CallError.mcp ⟨BaseErrorCode.NOT_FOUND, "Directory not found."⟩)⟩

/-- Environment for the C9 witness with two case-insensitive matches. -/
def deleteEnvMany : DeleteEnv :=
  ⟨fun _ => Except.error (CallError.mcp ⟨BaseErrorCode.NOT_FOUND, "File not found."⟩),
    Except.ok (),
    fun _ => Except.ok ["file.MD", "FILE.md"]⟩

/-- Environment for the C9 witness with no case-insensitive match. -/
def deleteEnvNone : DeleteEnv :=
  ⟨fun _ => Except.error (CallError.mcp ⟨BaseErrorCode.NOT_FOUND, "File not found."⟩),
    Except.ok (),
    fun _ => Except.ok ["other.md"]⟩

/-- Witness for C9: the three fallback outcomes at concrete inputs. -/
theorem C9_delete_fallback_witness :
    processObsidianDeleteNote deleteEnvOne DeleteNoteTargetType.filePath
        "Notes/file.md" =
      DeleteOutcome.ok ⟨true,
        "File 'Notes/File.md' (found via case-insensitive match for 'Notes/file.md') deleted successfully."⟩ ∧
    processObsidianDeleteNote deleteEnvMany DeleteNoteTargetType.filePath
        "Notes/file.md" =
      DeleteOutcome.err ⟨BaseErrorCode.CONFLICT,
        "Deletion failed: Ambiguous case-insensitive matches for 'Notes/file.md'. Found: [file.MD, FILE.md]. Cannot determine which file to delete."⟩ ∧
    processObsidianDeleteNote deleteEnvNone DeleteNoteTargetType.filePath
        "Notes/file.md" =
      DeleteOutcome.err ⟨BaseErrorCode.NOT_FOUND,
        "Deletion failed: File not found for 'Notes/file.md' (case-insensitive fallback also failed)."⟩ := by
  refine ⟨?_, ?_, ?_⟩
  · exact (C9_delete_fallback deleteEnvOne "Notes/file.md" "File not found."
      ["File.md", "sub/"] rfl rfl).1 "File.md" rfl rfl
  · exact (C9_delete_fallback deleteEnvMany "Notes/file.md" "File not found."
      ["file.MD", "FILE.md"] rfl rfl).2.1 (by decide)
  · exact (C9_delete_fallback deleteEnvNone "Notes/file.md" "File not found."
      ["other.md"] rfl rfl).2.2 rfl

/-! ## The vault cache layer

The `VaultCacheService` implementation is not among the provided sources
(only its callers are), so the whole layer is modelled from the
specification's sections 3 to 5. Remote timestamps (`lastModified`) and the
local clock (`fetchedAt`) are `Nat`s. -/

/-- Modelled from the spec: the per-entry freshness state
`{listed-only, content-loaded, stale-pending-refresh}`. -/
inductive EntryState where
  | listedOnly
  | contentLoaded
  | stalePendingRefresh
  deriving DecidableEq, Repr

/-- Modelled from the spec: a `CacheEntry`'s metadata — size and the
last-modified timestamp as reported by the remote store. -/
structure NoteMetadata where
  size : Nat
  lastModified : Nat
  deriving DecidableEq, Repr

/-- Modelled from the spec: one `CacheEntry` per vault-relative path:
optional content, metadata, the local timestamp `fetchedAt` at which the
entry's data was last confirmed accurate, and the freshness state. -/
structure CacheEntry where
  path : String
  content : Option String
  metadata : NoteMetadata
  fetchedAt : Nat
  state : EntryState
  deriving DecidableEq, Repr

/-- Modelled from the spec: the `CacheEntryStore`, a mapping from path to
`CacheEntry` (keys unique, iteration order irrelevant). -/
abbrev CacheEntryStore := List CacheEntry

/-- Looks a path up in the store. -/
def lookupPath (store : CacheEntryStore) (p : String) : Option CacheEntry :=
  store.find? (fun e => e.path == p)

/-- Modelled from the spec: the lifecycle states
`{idle, building, ready, refreshing}`. -/
inductive LifecycleState where
  | idle
  | building
  | ready
  | refreshing
  deriving DecidableEq, Repr

/-- Modelled from the spec: the process-wide `CacheLifecycle`. -/
structure CacheLifecycle where
  state : LifecycleState
  lastBuildCompletedAt : Option Nat
  lastRefreshCompletedAt : Option Nat
  lastError : Option String
  deriving DecidableEq, Repr

/-- Modelled from the spec: one row of the Remote Store Client's
`listAll() -> sequence of (path, lastModified, size)`. -/
structure RemoteListing where
  path : String
  lastModified : Nat
  size : Nat
  deriving DecidableEq, Repr

/-- Modelled from the spec: the Remote Store Client's typed error results
(`NotFound | TransientError`). -/
inductive RemoteError where
  | notFound
  | transient
  deriving DecidableEq, Repr

/-- The Cache Manager's whole state: the entry store and the lifecycle,
both owned exclusively by it. -/
structure VaultCache where
  store : CacheEntryStore
  lifecycle : CacheLifecycle
  deriving Repr

/-- Modelled from the spec: the `listed-only` entry the build's listing
pass records for one listed document — path and metadata only, no
content. -/
def freshEntry (l : RemoteListing) (now : Nat) : CacheEntry :=
  ⟨l.path, none, ⟨l.size, l.lastModified⟩, now, EntryState.listedOnly⟩

/-- Modelled from the spec: the store after a successful full listing pass
(build): one `listed-only` entry per listed document. -/
def buildStore (listings : List RemoteListing) (now : Nat) : CacheEntryStore :=
  listings.map (fun l => freshEntry l now)

/-- Modelled from the spec: the partial store visible to concurrent readers
while the build has processed the first `k` listings (partial progress is
visible entry-by-entry). -/
def buildSoFar (listings : List RemoteListing) (k : Nat) (now : Nat) :
    CacheEntryStore :=
  (listings.take k).map (fun l => freshEntry l now)

/-- Modelled from the spec: the entry after a refresh found a newer remote
timestamp for an existing path — metadata is refreshed eagerly, content is
kept to be re-fetched lazily, the entry is marked `stale-pending-refresh`
and `fetchedAt` is set to the refresh time. -/
def refreshedEntry (e : CacheEntry) (l : RemoteListing) (now : Nat) : CacheEntry :=
  ⟨l.path, e.content, ⟨l.size, l.lastModified⟩, now, EntryState.stalePendingRefresh⟩

/-- Modelled from the spec: what one refresh pass records for one listed
path. A new path gets a `listed-only` entry. For an existing entry the
write is applied only when the listing's timestamp is strictly newer than
the entry's recorded remote version (`metadata.lastModified`, the
`fetchedAt`-derived version): an equal or older listing timestamp leaves
the entry untouched, so a stale listing response cannot clobber a newer
invalidation (last-writer-wins by remote timestamp). -/
def refreshOne (store : CacheEntryStore) (now : Nat) (l : RemoteListing) :
    CacheEntry :=
  match lookupPath store l.path with
  | none => freshEntry l now
  | some e =>
    if e.metadata.lastModified < l.lastModified then refreshedEntry e l now
    else e

/-- Modelled from the spec: a completed refresh pass over a successful
re-listing — per listed path `refreshOne`, and entries whose paths no
longer exist in the remote listing are deleted from the store. -/
def refreshApply (now : Nat) (store : CacheEntryStore)
    (listings : List RemoteListing) : CacheEntryStore :=
  listings.map (fun l => refreshOne store now l)

/-- Modelled from the spec: upsert of a single entry — replaces the entry
with the same path, or appends when the path is new. -/
def upsert (store : CacheEntryStore) (x : CacheEntry) : CacheEntryStore :=
  if store.any (fun e => e.path == x.path) then
    store.map (fun e => if e.path == x.path then x else e)
  else store ++ [x]

/-- Modelled from the spec: removal of the entry for a path, entirely (not
marked stale). -/
def removePath (store : CacheEntryStore) (p : String) : CacheEntryStore :=
  store.filter (fun e => !(e.path == p))

/-- Modelled from the spec: `invalidate(path)` / `updateCacheForFile(path)`
after an adapter-originated write. A delete removes the entry for the path
if present; otherwise the single path is re-fetched and upserted with
`fetchedAt` set to now (`fetchRes` is the observed outcome of the Remote
Store Client's `fetch(path)`), and a re-fetch failure is non-fatal: the
stale entry is left in place. -/
def updateCacheForFile (store : CacheEntryStore) (p : String)
    (isDelete : Bool) (fetchRes : Except RemoteError (String × NoteMetadata))
    (now : Nat) : CacheEntryStore :=
  if isDelete then removePath store p
  else
    match fetchRes with
    | Except.ok (c, md) =>
      upsert store ⟨p, some c, md, now, EntryState.contentLoaded⟩
    | Except.error _ => store

/-- Modelled from the spec: `get(path)` returns the `CacheEntry` if
present, regardless of lifecycle state; an unknown path is "not present"
(`none`), never an error. -/
def get (vc : VaultCache) (p : String) : Option CacheEntry :=
  lookupPath vc.store p

/-- Modelled from the spec: a search result — the matching entries,
tagged as incomplete (partial) when the lifecycle is `building`. -/
structure SearchResult where
  entries : List CacheEntry
  incomplete : Bool
  deriving Repr

/-- Modelled from the spec: `search(predicate)` scans all entries against
the match predicate; issued while the lifecycle is `building` it returns
whatever subset has been listed so far, tagged as partial, and never
errors. -/
def search (vc : VaultCache) (pred : CacheEntry → Bool) : SearchResult :=
  ⟨vc.store.filter pred, vc.lifecycle.state == LifecycleState.building⟩

/-- Modelled from the spec: the events that reach the Cache Manager — the
scheduler's build/refresh drive (with the remote outcome each observed)
and the consumers' read and invalidation calls. -/
inductive CacheEvent where
  | startupBuildStart
  | buildSucceeded (listings : List RemoteListing) (now : Nat)
  | buildFailed (errMsg : String)
  | refreshTick
  | refreshCompleted (listings : List RemoteListing) (now : Nat)
  | refreshFailed (errMsg : String)
  | getReq (p : String)
  | searchReq (pred : CacheEntry → Bool)
  | invalidateReq (p : String) (isDelete : Bool)
      (fetchRes : Except RemoteError (String × NoteMetadata)) (now : Nat)

/-- Modelled from the spec: the Cache Manager's reaction to one event.
Lifecycle transitions follow section 4.1: `idle → building` at startup,
`building → ready` on a successful full listing pass, `building → idle` on
build failure, `ready → refreshing` on a scheduler tick, `refreshing →
ready` on refresh completion or failure (a refresh failure leaves the
entries untouched and the next tick is scheduled normally). Read and
invalidate calls never touch the lifecycle. -/
def step (vc : VaultCache) : CacheEvent → VaultCache
  | CacheEvent.startupBuildStart =>
    if vc.lifecycle.state = LifecycleState.idle then
      ⟨vc.store, { vc.lifecycle with state := LifecycleState.building }⟩
    else vc
  | CacheEvent.buildSucceeded listings now =>
    if vc.lifecycle.state = LifecycleState.building then
      ⟨buildStore listings now,
        { vc.lifecycle with
            state := LifecycleState.ready, lastBuildCompletedAt := some now }⟩
    else vc
  | CacheEvent.buildFailed msg =>
    if vc.lifecycle.state = LifecycleState.building then
      ⟨vc.store,
        { vc.lifecycle with
            state := LifecycleState.idle, lastError := some msg }⟩
    else vc
  | CacheEvent.refreshTick =>
    if vc.lifecycle.state = LifecycleState.ready then
      ⟨vc.store, { vc.lifecycle with state := LifecycleState.refreshing }⟩
    else vc
  | CacheEvent.refreshCompleted listings now =>
    if vc.lifecycle.state = LifecycleState.refreshing then
      ⟨refreshApply now vc.store listings,
        { vc.lifecycle with
            state := LifecycleState.ready, lastRefreshCompletedAt := some now }⟩
    else vc
  | CacheEvent.refreshFailed msg =>
    if vc.lifecycle.state = LifecycleState.refreshing then
      ⟨vc.store,
        { vc.lifecycle with
            state := LifecycleState.ready, lastError := some msg }⟩
    else vc
  | CacheEvent.getReq _ => vc
  | CacheEvent.searchReq _ => vc
  | CacheEvent.invalidateReq p isDelete fetchRes now =>
    ⟨updateCacheForFile vc.store p isDelete fetchRes now, vc.lifecycle⟩

/-! ### Lookup lemmas for the store operations -/

theorem lookupPath_mem {store : CacheEntryStore} {p : String} {e : CacheEntry}
    (h : lookupPath store p = some e) : e ∈ store :=
  List.mem_of_find?_eq_some h

theorem lookupPath_path {store : CacheEntryStore} {p : String} {e : CacheEntry}
    (h : lookupPath store p = some e) : e.path = p := by
  have := List.find?_some h
  simpa using this

theorem lookupPath_map (f : RemoteListing → CacheEntry)
    (hf : ∀ l, (f l).path = l.path) (L : List RemoteListing) (p : String) :
    lookupPath (L.map f) p = (L.find? (fun l => l.path == p)).map f := by
  induction L with
  | nil => rfl
  | cons l L ih =>
    simp only [List.map_cons, lookupPath, List.find?]
    rw [hf l]
    cases h : (l.path == p) with
    | true => rfl
    | false => exact ih

theorem refreshOne_path (store : CacheEntryStore) (now : Nat)
    (l : RemoteListing) : (refreshOne store now l).path = l.path := by
  simp only [refreshOne]
  cases h : lookupPath store l.path with
  | none => rfl
  | some e =>
    by_cases hlt : e.metadata.lastModified < l.lastModified
    · simp [hlt, refreshedEntry]
    · simp [hlt, lookupPath_path h]

theorem lookupPath_refreshApply (now : Nat) (store : CacheEntryStore)
    (L : List RemoteListing) (p : String) :
    lookupPath (refreshApply now store L) p =
      (L.find? (fun l => l.path == p)).map (fun l => refreshOne store now l) :=
  lookupPath_map _ (refreshOne_path store now) L p

theorem lookupPath_buildStore (L : List RemoteListing) (now : Nat) (p : String) :
    lookupPath (buildStore L now) p =
      (L.find? (fun l => l.path == p)).map (fun l => freshEntry l now) :=
  lookupPath_map _ (fun _ => rfl) L p

theorem lookupPath_removePath (store : CacheEntryStore) (q p : String) :
    lookupPath (removePath store q) p =
      if q = p then none else lookupPath store p := by
  by_cases h : q = p
  · subst h
    rw [if_pos rfl]
    apply List.find?_eq_none.mpr
    intro e he
    have := (List.mem_filter.mp he).2
    simpa using this
  · rw [if_neg h]
    induction store with
    | nil => rfl
    | cons e s ih =>
      simp only [removePath, List.filter, lookupPath, List.find?]
      by_cases hq : e.path = q
      · have h1 : (e.path == q) = true := by simpa using hq
        have h2 : (e.path == p) = false := by
          simp only [beq_eq_false_iff_ne]
          rw [hq]
          exact h
        simp only [h1, h2, Bool.not_true, cond_false]
        simpa [removePath, lookupPath] using ih
      · have h1 : (e.path == q) = false := by simpa using hq
        simp only [h1, Bool.not_false, cond_true, List.find?]
        cases hp : (e.path == p) with
        | true => rfl
        | false => simpa [removePath, lookupPath] using ih

theorem lookupPath_map_replace_ne (store : CacheEntryStore) (x : CacheEntry)
    (p : String) (hne : x.path ≠ p) :
    lookupPath (store.map (fun e => if e.path == x.path then x else e)) p =
      lookupPath store p := by
  have hx : (x.path == p) = false := by simpa using hne
  induction store with
  | nil => rfl
  | cons e s ih =>
    simp only [List.map_cons, lookupPath, List.find?]
    cases he : (e.path == x.path) with
    | true =>
      have hep : (e.path == p) = false := by
        have h1 : e.path = x.path := by simpa using he
        rw [h1]
        exact hx
      simp only [if_true, hx, hep]
      exact ih
    | false =>
      simp only [Bool.false_eq_true, if_false]
      cases hp : (e.path == p) with
      | true => rfl
      | false => exact ih

theorem lookupPath_upsert (store : CacheEntryStore) (x : CacheEntry)
    (p : String) :
    lookupPath (upsert store x) p =
      if x.path = p then some x else lookupPath store p := by
  simp only [upsert]
  by_cases hany : store.any (fun e => e.path == x.path) = true
  · rw [if_pos hany]
    by_cases hp : x.path = p
    · subst hp
      rw [if_pos rfl]
      induction store with
      | nil => simp at hany
      | cons e s ih =>
        simp only [List.map_cons, lookupPath, List.find?]
        cases he : (e.path == x.path) with
        | true => simp
        | false =>
          simp only [Bool.false_eq_true, if_false, he]
          have hany' : s.any (fun e => e.path == x.path) = true := by
            simp only [List.any_cons, he, Bool.false_or] at hany
            exact hany
          exact ih hany'
    · rw [if_neg hp]
      exact lookupPath_map_replace_ne store x p hp
  · rw [if_neg hany]
    simp only [lookupPath, List.find?_append]
    by_cases hp : x.path = p
    · subst hp
      have hnone : store.find? (fun e => e.path == x.path) = none := by
        apply List.find?_eq_none.mpr
        intro e he
        intro hcontra
        exact hany (List.any_eq_true.mpr ⟨e, he, hcontra⟩)
      rw [if_pos rfl, hnone]
      simp [List.find?]
    · rw [if_neg hp]
      cases hfind : store.find? (fun e => e.path == p) with
      | some e => simp [hfind]
      | none =>
        have hx : (x.path == p) = false := by simpa using hp
        simp [hfind, List.find?, hx]

/-- C8: `get` on a path with no entry in the store returns "not present"
(`none`), not an error, and the answer of `get` does not depend on the
lifecycle state at all — in particular the cache never raises the remote
store's not-found error (`get` is a total function into
`Option CacheEntry`, with no error outcome). -/
theorem C8_get_unknown_not_present :
    ∀ (vc : VaultCache) (p : String),
      ((∀ e ∈ vc.store, e.path ≠ p) → get vc p = none) ∧
      (∀ lc : CacheLifecycle, get ⟨vc.store, lc⟩ p = get vc p) := by
  intro vc p
  constructor
  · intro h
    apply List.find?_eq_none.mpr
    intro e he
    simpa using h e he
  · intro lc
    rfl

/-- C5: a `search` issued while the lifecycle is `building` (the store
holding the first `k` listings processed so far) never errors (`search` is
total), returns exactly the subset listed so far tagged as partial
(`incomplete = true`), and is monotone: every match it returns is also a
match of the same search on the completed build's store, whatever the
lifecycle is then. -/
theorem C5_search_during_build :
    ∀ (listings : List RemoteListing) (k now : Nat) (pred : CacheEntry → Bool)
      (b r : Option Nat) (er : Option String) (lcAfter : CacheLifecycle),
      (search ⟨buildSoFar listings k now, ⟨LifecycleState.building, b, r, er⟩⟩
        pred).incomplete = true ∧
      (search ⟨buildSoFar listings k now, ⟨LifecycleState.building, b, r, er⟩⟩
        pred).entries = (buildSoFar listings k now).filter pred ∧
      (∀ e, e ∈ (search ⟨buildSoFar listings k now,
          ⟨LifecycleState.building, b, r, er⟩⟩ pred).entries →
        e ∈ (search ⟨buildStore listings now, lcAfter⟩ pred).entries) := by
  intro listings k now pred b r er lcAfter
  refine ⟨rfl, rfl, ?_⟩
  intro e he
  simp only [search, List.mem_filter] at he ⊢
  refine ⟨?_, he.2⟩
  have h1 := he.1
  simp only [buildSoFar, List.mem_map] at h1
  obtain ⟨l, hl, rfl⟩ := h1
  simp only [buildStore, List.mem_map]
  exact ⟨l, List.take_subset k listings hl, rfl⟩

/-- C2: a refresh cycle that fails (remote store unreachable) leaves the
store byte-for-byte unchanged — as a whole and per entry — and the
lifecycle returns to `ready`, so the next scheduler tick is accepted
normally (it moves `ready` to `refreshing` again). -/
theorem C2_refresh_failure_preserves_entries (vc : VaultCache) (msg : String)
    (href : vc.lifecycle.state = LifecycleState.refreshing) :
    (step vc (CacheEvent.refreshFailed msg)).store = vc.store ∧
    (∀ p, lookupPath (step vc (CacheEvent.refreshFailed msg)).store p =
      lookupPath vc.store p) ∧
    (step vc (CacheEvent.refreshFailed msg)).lifecycle.state =
      LifecycleState.ready ∧
    (step (step vc (CacheEvent.refreshFailed msg))
      CacheEvent.refreshTick).lifecycle.state = LifecycleState.refreshing := by
  simp [step, href]

/-- A concrete mid-refresh cache for the C2 witness. -/
def refreshingCache : VaultCache :=
  ⟨[⟨"notes/a.md", none, ⟨120, 5⟩, 10, EntryState.listedOnly⟩,
      ⟨"notes/b.md", some "hello", ⟨64, 6⟩, 11, EntryState.contentLoaded⟩],
    ⟨LifecycleState.refreshing, some 3, some 7, none⟩⟩

/-- Witness for C2 at a concrete mid-refresh cache. -/
theorem C2_refresh_failure_witness :
    (step refreshingCache (CacheEvent.refreshFailed "remote unreachable")).store =
      refreshingCache.store ∧
    (∀ p, lookupPath
        (step refreshingCache (CacheEvent.refreshFailed "remote unreachable")).store p =
      lookupPath refreshingCache.store p) ∧
    (step refreshingCache
        (CacheEvent.refreshFailed "remote unreachable")).lifecycle.state =
      LifecycleState.ready ∧
    (step (step refreshingCache (CacheEvent.refreshFailed "remote unreachable"))
      CacheEvent.refreshTick).lifecycle.state = LifecycleState.refreshing :=
  C2_refresh_failure_preserves_entries refreshingCache "remote unreachable" rfl

/-- The transition edges the spec's lifecycle state machine allows:
`idle → building`, `building → ready`, `building → idle`,
`ready → refreshing`, `refreshing → ready`. -/
def lifecycleEdgeAllowed : LifecycleState → LifecycleState → Bool
  | LifecycleState.idle, LifecycleState.building => true
  | LifecycleState.building, LifecycleState.ready => true
  | LifecycleState.building, LifecycleState.idle => true
  | LifecycleState.ready, LifecycleState.refreshing => true
  | LifecycleState.refreshing, LifecycleState.ready => true
  | _, _ => false

/-- C6: every event either leaves the lifecycle state unchanged or moves it
along one of the allowed edges; `get`, `search` and
`invalidate`/`updateCacheForFile` leave the whole lifecycle untouched; and
each trigger causes exactly its listed transition: startup moves `idle` to
`building`, a successful full listing pass moves `building` to `ready`, a
build failure moves `building` to `idle`, a scheduler tick moves `ready`
to `refreshing`, and refresh completion — successful or failed, whether or
not entries changed — moves `refreshing` back to `ready`. -/
theorem C6_lifecycle_transitions :
    (∀ (vc : VaultCache) (ev : CacheEvent),
      (step vc ev).lifecycle.state = vc.lifecycle.state ∨
      lifecycleEdgeAllowed vc.lifecycle.state (step vc ev).lifecycle.state = true) ∧
    (∀ (vc : VaultCache) (p : String),
      (step vc (CacheEvent.getReq p)).lifecycle = vc.lifecycle) ∧
    (∀ (vc : VaultCache) (pred : CacheEntry → Bool),
      (step vc (CacheEvent.searchReq pred)).lifecycle = vc.lifecycle) ∧
    (∀ (vc : VaultCache) (p : String) (d : Bool)
      (fr : Except RemoteError (String × NoteMetadata)) (now : Nat),
      (step vc (CacheEvent.invalidateReq p d fr now)).lifecycle = vc.lifecycle) ∧
    (∀ vc : VaultCache, vc.lifecycle.state = LifecycleState.idle →
      (step vc CacheEvent.startupBuildStart).lifecycle.state =
        LifecycleState.building) ∧
    (∀ (vc : VaultCache) (L : List RemoteListing) (now : Nat),
      vc.lifecycle.state = LifecycleState.building →
      (step vc (CacheEvent.buildSucceeded L now)).lifecycle.state =
        LifecycleState.ready) ∧
    (∀ (vc : VaultCache) (m : String),
      vc.lifecycle.state = LifecycleState.building →
      (step vc (CacheEvent.buildFailed m)).lifecycle.state =
        LifecycleState.idle) ∧
    (∀ vc : VaultCache, vc.lifecycle.state = LifecycleState.ready →
      (step vc CacheEvent.refreshTick).lifecycle.state =
        LifecycleState.refreshing) ∧
    (∀ (vc : VaultCache) (L : List RemoteListing) (now : Nat),
      vc.lifecycle.state = LifecycleState.refreshing →
      (step vc (CacheEvent.refreshCompleted L now)).lifecycle.state =
        LifecycleState.ready) ∧
    (∀ (vc : VaultCache) (m : String),
      vc.lifecycle.state = LifecycleState.refreshing →
      (step vc (CacheEvent.refreshFailed m)).lifecycle.state =
        LifecycleState.ready) := by
  refine ⟨?_, fun vc p => rfl, fun vc pred => rfl, fun vc p d fr now => rfl,
    fun vc h => by simp [step, h], fun vc L now h => by simp [step, h],
    fun vc m h => by simp [step, h], fun vc h => by simp [step, h],
    fun vc L now h => by simp [step, h], fun vc m h => by simp [step, h]⟩
  intro vc ev
  cases ev with
  | startupBuildStart =>
    by_cases h : vc.lifecycle.state = LifecycleState.idle
    · right
      simp [step, h, lifecycleEdgeAllowed]
    · left
      simp [step, h]
  | buildSucceeded L now =>
    by_cases h : vc.lifecycle.state = LifecycleState.building
    · right
      simp [step, h, lifecycleEdgeAllowed]
    · left
      simp [step, h]
  | buildFailed m =>
    by_cases h : vc.lifecycle.state = LifecycleState.building
    · right
      simp [step, h, lifecycleEdgeAllowed]
    · left
      simp [step, h]
  | refreshTick =>
    by_cases h : vc.lifecycle.state = LifecycleState.ready
    · right
      simp [step, h, lifecycleEdgeAllowed]
    · left
      simp [step, h]
  | refreshCompleted L now =>
    by_cases h : vc.lifecycle.state = LifecycleState.refreshing
    · right
      simp [step, h, lifecycleEdgeAllowed]
    · left
      simp [step, h]
  | refreshFailed m =>
    by_cases h : vc.lifecycle.state = LifecycleState.refreshing
    · right
      simp [step, h, lifecycleEdgeAllowed]
    · left
      simp [step, h]
  | getReq p => exact Or.inl rfl
  | searchReq pred => exact Or.inl rfl
  | invalidateReq p d fr now => exact Or.inl rfl

/-- C4: invalidation after an adapter-originated write. A delete signal
removes the entry for the path, so no subsequent search result contains
that path; a non-delete invalidation whose re-fetch succeeds upserts the
entry with the fetched content and metadata and `fetchedAt = now`; a
transient re-fetch failure leaves the store — including the stale entry —
byte-for-byte in place. -/
theorem C4_invalidation :
    ∀ (vc : VaultCache) (p : String)
      (fr : Except RemoteError (String × NoteMetadata)) (now : Nat),
      (lookupPath (step vc (CacheEvent.invalidateReq p true fr now)).store p =
          none ∧
        ∀ (pred : CacheEntry → Bool) (e : CacheEntry),
          e ∈ (search (step vc (CacheEvent.invalidateReq p true fr now))
            pred).entries → e.path ≠ p) ∧
      (∀ (c : String) (md : NoteMetadata), fr = Except.ok (c, md) →
        lookupPath (step vc (CacheEvent.invalidateReq p false fr now)).store p =
          some ⟨p, some c, md, now, EntryState.contentLoaded⟩) ∧
      (fr = Except.error RemoteError.transient →
        (step vc (CacheEvent.invalidateReq p false fr now)).store = vc.store) := by
  intro vc p fr now
  refine ⟨⟨?_, ?_⟩, ?_, ?_⟩
  · simp only [step, updateCacheForFile, if_pos]
    rw [lookupPath_removePath, if_pos rfl]
  · intro pred e he
    simp only [search, step, updateCacheForFile, if_pos, List.mem_filter] at he
    have := (List.mem_filter.mp he.1).2
    simpa using this
  · intro c md hfr
    subst hfr
    simp only [step, updateCacheForFile, Bool.false_eq_true, if_false]
    rw [lookupPath_upsert]
    simp
  · intro hfr
    subst hfr
    simp [step, updateCacheForFile]

/-- Every entry's local `fetchedAt` is at most `t`: the local clock has
reached `t`. -/
def storeUpToDate (store : CacheEntryStore) (t : Nat) : Prop :=
  ∀ e ∈ store, e.fetchedAt ≤ t

/-- The clock discipline of an event: any event carrying a local timestamp
`now` observes a clock that has not gone backwards relative to the store's
recorded `fetchedAt` values. -/
def eventClockOk (vc : VaultCache) : CacheEvent → Prop
  | CacheEvent.buildSucceeded _ now => storeUpToDate vc.store now
  | CacheEvent.refreshCompleted _ now => storeUpToDate vc.store now
  | CacheEvent.invalidateReq _ _ _ now => storeUpToDate vc.store now
  | _ => True

/-- C3: per path, `fetchedAt` is monotonically non-decreasing across every
event (under the clock discipline); a refresh write for a path whose
listing timestamp is older than the entry's recorded remote version is not
applied (the entry stays byte-for-byte the same); and a delete
invalidation removes the entry entirely, it does not mark it stale. -/
theorem C3_fetchedAt_monotone :
    (∀ (vc : VaultCache) (ev : CacheEvent) (p : String) (e e' : CacheEntry),
      eventClockOk vc ev →
      lookupPath vc.store p = some e →
      lookupPath (step vc ev).store p = some e' →
      e.fetchedAt ≤ e'.fetchedAt) ∧
    (∀ (vc : VaultCache) (listings : List RemoteListing) (now : Nat)
      (p : String) (e : CacheEntry) (l : RemoteListing),
      vc.lifecycle.state = LifecycleState.refreshing →
      lookupPath vc.store p = some e →
      listings.find? (fun l' => l'.path == p) = some l →
      l.lastModified < e.metadata.lastModified →
      lookupPath
        (step vc (CacheEvent.refreshCompleted listings now)).store p = some e) ∧
    (∀ (vc : VaultCache) (p : String)
      (fr : Except RemoteError (String × NoteMetadata)) (now : Nat),
      lookupPath (step vc (CacheEvent.invalidateReq p true fr now)).store p =
        none) := by
  refine ⟨?_, ?_, ?_⟩
  · intro vc ev p e e' hclock h1 h2
    cases ev with
    | startupBuildStart =>
      have hs : (step vc CacheEvent.startupBuildStart).store = vc.store := by
        simp only [step]
        split <;> rfl
      rw [hs, h1] at h2
      cases h2
      exact le_refl _
    | buildFailed m =>
      have hs : (step vc (CacheEvent.buildFailed m)).store = vc.store := by
        simp only [step]
        split <;> rfl
      rw [hs, h1] at h2
      cases h2
      exact le_refl _
    | refreshTick =>
      have hs : (step vc CacheEvent.refreshTick).store = vc.store := by
        simp only [step]
        split <;> rfl
      rw [hs, h1] at h2
      cases h2
      exact le_refl _
    | refreshFailed m =>
      have hs : (step vc (CacheEvent.refreshFailed m)).store = vc.store := by
        simp only [step]
        split <;> rfl
      rw [hs, h1] at h2
      cases h2
      exact le_refl _
    | getReq q =>
      rw [show (step vc (CacheEvent.getReq q)).store = vc.store from rfl,
        h1] at h2
      cases h2
      exact le_refl _
    | searchReq pred =>
      rw [show (step vc (CacheEvent.searchReq pred)).store = vc.store from rfl,
        h1] at h2
      cases h2
      exact le_refl _
    | buildSucceeded L now =>
      by_cases hb : vc.lifecycle.state = LifecycleState.building
      · have hs : (step vc (CacheEvent.buildSucceeded L now)).store =
            buildStore L now := by
          simp [step, hb]
        rw [hs, lookupPath_buildStore] at h2
        cases hf : L.find? (fun l => l.path == p) with
        | none =>
          rw [hf] at h2
          cases h2
        | some l =>
          rw [hf] at h2
          simp only [Option.map_some'] at h2
          rw [Option.some.injEq] at h2
          have he' : e'.fetchedAt = now := by
            rw [← h2]
            rfl
          have hle : e.fetchedAt ≤ now := hclock e (lookupPath_mem h1)
          omega
      · have hs : (step vc (CacheEvent.buildSucceeded L now)).store =
            vc.store := by
          simp [step, hb]
        rw [hs, h1] at h2
        cases h2
        exact le_refl _
    | refreshCompleted L now =>
      by_cases hb : vc.lifecycle.state = LifecycleState.refreshing
      · have hs : (step vc (CacheEvent.refreshCompleted L now)).store =
            refreshApply now vc.store L := by
          simp [step, hb]
        rw [hs, lookupPath_refreshApply] at h2
        cases hf : L.find? (fun l => l.path == p) with
        | none =>
          rw [hf] at h2
          cases h2
        | some l =>
          rw [hf] at h2
          simp only [Option.map_some'] at h2
          have hlp : l.path = p := by
            simpa using List.find?_some hf
          rw [Option.some.injEq] at h2
          rw [← h2]
          simp only [refreshOne, hlp, h1]
          by_cases hlt : e.metadata.lastModified < l.lastModified
          · simp only [if_pos hlt, refreshedEntry]
            exact hclock e (lookupPath_mem h1)
          · simp only [if_neg hlt]
            exact le_refl _
      · have hs : (step vc (CacheEvent.refreshCompleted L now)).store =
            vc.store := by
          simp [step, hb]
        rw [hs, h1] at h2
        cases h2
        exact le_refl _
    | invalidateReq q d fr now =>
      have hs : (step vc (CacheEvent.invalidateReq q d fr now)).store =
          updateCacheForFile vc.store q d fr now := rfl
      rw [hs] at h2
      cases d with
      | true =>
        simp only [updateCacheForFile, if_pos] at h2
        rw [lookupPath_removePath] at h2
        by_cases hq : q = p
        · rw [if_pos hq] at h2
          cases h2
        · rw [if_neg hq, h1] at h2
          cases h2
          exact le_refl _
      | false =>
        simp only [updateCacheForFile, Bool.false_eq_true, if_false] at h2
        cases fr with
        | ok pr =>
          obtain ⟨c, md⟩ := pr
          rw [lookupPath_upsert] at h2
          by_cases hq :
              (⟨q, some c, md, now, EntryState.contentLoaded⟩ :
                CacheEntry).path = p
          · rw [if_pos hq] at h2
            rw [Option.some.injEq] at h2
            have he' : e'.fetchedAt = now := by
              rw [← h2]
            have hle : e.fetchedAt ≤ now := hclock e (lookupPath_mem h1)
            omega
          · rw [if_neg hq, h1] at h2
            cases h2
            exact le_refl _
        | error err =>
          rw [h1] at h2
          cases h2
          exact le_refl _
  · intro vc listings now p e l hb h1 hf hold
    have hs : (step vc (CacheEvent.refreshCompleted listings now)).store =
        refreshApply now vc.store listings := by
      simp [step, hb]
    rw [hs, lookupPath_refreshApply, hf]
    simp only [Option.map_some']
    have hlp : l.path = p := by
      simpa using List.find?_some hf
    simp only [refreshOne, hlp, h1]
    rw [if_neg (by omega)]
  · intro vc p fr now
    have hs : (step vc (CacheEvent.invalidateReq p true fr now)).store =
        updateCacheForFile vc.store p true fr now := rfl
    rw [hs]
    simp only [updateCacheForFile, if_pos]
    rw [lookupPath_removePath, if_pos rfl]

/-! ### The refresh scenario of C7 -/

/-- The remote listing the C7 refresh observes: the build's listing with
the row for `d.path` omitted and the row for `c.path` reported with the
newer timestamp `newTs`. -/
def refreshListingFor (listings : List RemoteListing) (d c : RemoteListing)
    (newTs : Nat) : List RemoteListing :=
  (listings.filter (fun l => !(l.path == d.path))).map
    (fun l => if l.path == c.path then ⟨l.path, newTs, l.size⟩ else l)

theorem find?_filter_of_imp {α : Type} (q f : α → Bool)
    (h : ∀ x, q x = true → f x = true) (L : List α) :
    (L.filter f).find? q = L.find? q := by
  induction L with
  | nil => rfl
  | cons a t ih =>
    by_cases hf : f a = true
    · simp only [List.filter, hf, List.find?]
      cases hq : q a with
      | true => rfl
      | false => exact ih
    · have hq : q a = false := by
        cases hqa : q a with
        | false => rfl
        | true => exact absurd (h a hqa) hf
      have hf' : f a = false := by
        cases hfa : f a with
        | false => rfl
        | true => exact absurd hfa hf
      simp only [List.filter, hf', List.find?, hq]
      exact ih

theorem find?_path_map (g : RemoteListing → RemoteListing)
    (hg : ∀ l, (g l).path = l.path) (L : List RemoteListing) (p : String) :
    (L.map g).find? (fun l => l.path == p) =
      (L.find? (fun l => l.path == p)).map g := by
  induction L with
  | nil => rfl
  | cons l t ih =>
    simp only [List.map_cons, List.find?]
    rw [hg l]
    cases h : (l.path == p) with
    | true => rfl
    | false => exact ih

theorem find?_eq_of_mem_nodup {L : List RemoteListing} {c : RemoteListing}
    (hnd : (L.map RemoteListing.path).Nodup) (hc : c ∈ L) :
    L.find? (fun l => l.path == c.path) = some c := by
  induction L with
  | nil => cases hc
  | cons a t ih =>
    simp only [List.map_cons, List.nodup_cons] at hnd
    rcases List.mem_cons.mp hc with rfl | hct
    · simp [List.find?]
    · have hne : a.path ≠ c.path := by
        intro hcontra
        have hmem := List.mem_map_of_mem RemoteListing.path hct
        rw [← hcontra] at hmem
        exact hnd.1 hmem
      have h1 : (a.path == c.path) = false := by simpa using hne
      simp only [List.find?, h1]
      exact ih hnd.2 hct

theorem filter_ne_length {L : List RemoteListing} {d : RemoteListing}
    (hnd : (L.map RemoteListing.path).Nodup) (hd : d ∈ L) :
    (L.filter (fun l => !(l.path == d.path))).length + 1 = L.length := by
  induction L with
  | nil => cases hd
  | cons a t ih =>
    simp only [List.map_cons, List.nodup_cons] at hnd
    rcases List.mem_cons.mp hd with rfl | hdt
    · have h1 : (!(d.path == d.path)) = false := by simp
      simp only [List.filter, h1]
      have hkeep : t.filter (fun l => !(l.path == d.path)) = t := by
        apply List.filter_eq_self.mpr
        intro x hx
        have hne : x.path ≠ d.path := by
          intro hcontra
          have hmem := List.mem_map_of_mem RemoteListing.path hx
          rw [hcontra] at hmem
          exact hnd.1 hmem
        simpa using hne
      rw [hkeep]
      simp
    · have hne : a.path ≠ d.path := by
        intro hcontra
        have hmem := List.mem_map_of_mem RemoteListing.path hdt
        rw [← hcontra] at hmem
        exact hnd.1 hmem
      have h1 : (!(a.path == d.path)) = true := by simpa using hne
      simp only [List.filter, h1, List.length_cons]
      have := ih hnd.2 hdt
      omega

/-- C7: after a build that listed `listings` (N paths, distinct), a refresh
whose remote listing omits exactly the previously cached path `d.path` and
reports exactly `c.path` with a newer timestamp leaves the store with N−1
entries: this is what the `refreshing` cache's `refreshCompleted` step
computes, the omitted path's entry is deleted, the changed path's entry
differs from its pre-refresh value, and every other path's entry is
byte-identical to before. -/
theorem C7_refresh_scenario (listings : List RemoteListing)
    (d c : RemoteListing) (now0 now1 newTs : Nat)
    (hnd : (listings.map RemoteListing.path).Nodup)
    (hd : d ∈ listings) (hc : c ∈ listings) (hdc : c.path ≠ d.path)
    (hts : c.lastModified < newTs) :
    (∀ (b r : Option Nat) (er : Option String),
      (step ⟨buildStore listings now0, ⟨LifecycleState.refreshing, b, r, er⟩⟩
        (CacheEvent.refreshCompleted (refreshListingFor listings d c newTs)
          now1)).store =
      refreshApply now1 (buildStore listings now0)
        (refreshListingFor listings d c newTs)) ∧
    (refreshApply now1 (buildStore listings now0)
        (refreshListingFor listings d c newTs)).length + 1 =
      (buildStore listings now0).length ∧
    lookupPath (refreshApply now1 (buildStore listings now0)
      (refreshListingFor listings d c newTs)) d.path = none ∧
    lookupPath (refreshApply now1 (buildStore listings now0)
        (refreshListingFor listings d c newTs)) c.path ≠
      lookupPath (buildStore listings now0) c.path ∧
    (∀ p, p ≠ d.path → p ≠ c.path →
      lookupPath (refreshApply now1 (buildStore listings now0)
        (refreshListingFor listings d c newTs)) p =
      lookupPath (buildStore listings now0) p) := by
  have hbump : ∀ l : RemoteListing,
      ((if l.path == c.path then (⟨l.path, newTs, l.size⟩ : RemoteListing)
        else l) : RemoteListing).path = l.path := by
    intro l
    by_cases h : (l.path == c.path) = true
    · simp [h]
    · simp [h]
  have hF1 : ∀ p, (refreshListingFor listings d c newTs).find?
      (fun l => l.path == p) =
      ((listings.filter (fun l => !(l.path == d.path))).find?
        (fun l => l.path == p)).map
        (fun l => if l.path == c.path then ⟨l.path, newTs, l.size⟩ else l) := by
    intro p
    exact find?_path_map _ hbump _ p
  have hF2 : ∀ p, p ≠ d.path →
      (listings.filter (fun l => !(l.path == d.path))).find?
        (fun l => l.path == p) = listings.find? (fun l => l.path == p) := by
    intro p hp
    apply find?_filter_of_imp
    intro x hx
    have : x.path = p := by simpa using hx
    simp [this, hp]
  refine ⟨fun b r er => by simp [step], ?_, ?_, ?_, ?_⟩
  · simp only [refreshApply, refreshListingFor, buildStore, List.length_map]
    exact filter_ne_length hnd hd
  · rw [lookupPath_refreshApply]
    have hnone : (refreshListingFor listings d c newTs).find?
        (fun l => l.path == d.path) = none := by
      rw [hF1]
      have : (listings.filter (fun l => !(l.path == d.path))).find?
          (fun l => l.path == d.path) = none := by
        apply List.find?_eq_none.mpr
        intro x hx
        have := (List.mem_filter.mp hx).2
        simpa using this
      rw [this]
      rfl
    rw [hnone]
    rfl
  · have hfc : (refreshListingFor listings d c newTs).find?
        (fun l => l.path == c.path) =
        some ⟨c.path, newTs, c.size⟩ := by
      rw [hF1, hF2 c.path hdc, find?_eq_of_mem_nodup hnd hc]
      simp
    have hS0c : lookupPath (buildStore listings now0) c.path =
        some (freshEntry c now0) := by
      rw [lookupPath_buildStore, find?_eq_of_mem_nodup hnd hc]
      rfl
    have hS'c : lookupPath (refreshApply now1 (buildStore listings now0)
        (refreshListingFor listings d c newTs)) c.path =
        some (refreshedEntry (freshEntry c now0) ⟨c.path, newTs, c.size⟩ now1) := by
      rw [lookupPath_refreshApply, hfc]
      simp only [Option.map_some']
      have : refreshOne (buildStore listings now0) now1
          ⟨c.path, newTs, c.size⟩ =
          refreshedEntry (freshEntry c now0) ⟨c.path, newTs, c.size⟩ now1 := by
        simp only [refreshOne, hS0c]
        rw [if_pos]
        show (freshEntry c now0).metadata.lastModified < newTs
        simpa [freshEntry] using hts
      rw [this]
    rw [hS'c, hS0c]
    intro hcontra
    rw [Option.some.injEq] at hcontra
    have := congrArg (fun e : CacheEntry => e.metadata.lastModified) hcontra
    simp only [refreshedEntry, freshEntry] at this
    omega
  · intro p hpd hpc
    rw [lookupPath_refreshApply, lookupPath_buildStore, hF1, hF2 p hpd]
    cases hfind : listings.find? (fun l => l.path == p) with
    | none => rfl
    | some l =>
      have hlp : l.path = p := by
        simpa using List.find?_some hfind
      have hbl : (if l.path == c.path then
          (⟨l.path, newTs, l.size⟩ : RemoteListing) else l) = l := by
        rw [if_neg]
        simp only [beq_iff_eq, hlp]
        exact hpc
      simp only [Option.map_some', hbl]
      have hS0l : lookupPath (buildStore listings now0) l.path =
          some (freshEntry l now0) := by
        rw [lookupPath_buildStore,
          find?_eq_of_mem_nodup hnd (List.mem_of_find?_eq_some hfind)]
        rfl
      have : refreshOne (buildStore listings now0) now1 l =
          freshEntry l now0 := by
        simp only [refreshOne, hS0l]
        rw [if_neg]
        show ¬ (freshEntry l now0).metadata.lastModified < l.lastModified
        simp [freshEntry]
      rw [this]

/-- Build listing for the C7 witness: three distinct paths. -/
def listingsW : List RemoteListing :=
  [⟨"a.md", 5, 100⟩, ⟨"b.md", 6, 200⟩, ⟨"c.md", 7, 300⟩]

/-- Witness for C7: the scenario at a concrete three-path vault, where the
refresh omits "b.md" and reports "c.md" with a newer timestamp. -/
theorem C7_refresh_scenario_witness :
    (∀ (b r : Option Nat) (er : Option String),
      (step ⟨buildStore listingsW 10, ⟨LifecycleState.refreshing, b, r, er⟩⟩
        (CacheEvent.refreshCompleted
          (refreshListingFor listingsW ⟨"b.md", 6, 200⟩ ⟨"c.md", 7, 300⟩ 9)
          20)).store =
      refreshApply 20 (buildStore listingsW 10)
        (refreshListingFor listingsW ⟨"b.md", 6, 200⟩ ⟨"c.md", 7, 300⟩ 9)) ∧
    (refreshApply 20 (buildStore listingsW 10)
        (refreshListingFor listingsW ⟨"b.md", 6, 200⟩ ⟨"c.md", 7, 300⟩ 9)).length
        + 1 =
      (buildStore listingsW 10).length ∧
    lookupPath (refreshApply 20 (buildStore listingsW 10)
      (refreshListingFor listingsW ⟨"b.md", 6, 200⟩ ⟨"c.md", 7, 300⟩ 9))
      "b.md" = none ∧
    lookupPath (refreshApply 20 (buildStore listingsW 10)
        (refreshListingFor listingsW ⟨"b.md", 6, 200⟩ ⟨"c.md", 7, 300⟩ 9))
        "c.md" ≠
      lookupPath (buildStore listingsW 10) "c.md" ∧
    (∀ p, p ≠ "b.md" → p ≠ "c.md" →
      lookupPath (refreshApply 20 (buildStore listingsW 10)
        (refreshListingFor listingsW ⟨"b.md", 6, 200⟩ ⟨"c.md", 7, 300⟩ 9)) p =
      lookupPath (buildStore listingsW 10) p) :=
  C7_refresh_scenario listingsW ⟨"b.md", 6, 200⟩ ⟨"c.md", 7, 300⟩ 10 20 9
    (by decide) (by decide) (by decide) (by decide) (by decide)

end ObsidianMcp
